import Mathlib

/-!
Shallow embedding of the rjson recursive-descent JSON parser
(`src/lib.rs` of the repository).  The input buffer is modelled as its
sequence of characters (`List Char`), matching the Rust code's exclusive
use of `self.json.chars()` with character (codepoint) indices; the single
mutable cursor is the `pos` field.  Each parser method becomes a function
from the reader state to an outcome that carries the produced value (or
error) together with the updated state; the `.unwrap()` calls inside the
container loops become an explicit `panic` outcome.  The container loops
and the mutual recursion through `parse` are modelled with a fuel
parameter (structural recursion on `Nat`), and fuel-sufficiency is proved
separately, so every definition evaluates by kernel reduction.
-/

/-- The `JsonValue` enum of `src/lib.rs`.  Rust's `f64` payload of
`Number` is modelled as `ℚ` (the exact value of a decimal literal;
IEEE-754 rounding is abstracted away).  `String` payloads are the
character sequences of the Rust `String`s. -/
inductive JsonValue where
  | Bool (b : Bool)
  | Number (v : ℚ)
  | Null
  | Array (elems : List JsonValue)
  | String (s : List Char)
  | Object (pairs : List (List Char × JsonValue))

/-- The `JsonError` enum of `src/lib.rs`. -/
inductive JsonError where
  | InvalidFormat (msg : String)
  | EndOfStr
deriving DecidableEq

/-- The `Json` struct of `src/lib.rs`: cursor position and input buffer. -/
structure Json where
  pos : Nat
  json : List Char
deriving DecidableEq

/-- `Json::consume_char`. -/
def consumeChar (s : Json) : Json :=
  { s with pos := s.pos + 1 }

/-- `Json::consume_chars`. -/
def consumeChars (s : Json) (n : Nat) : Json :=
  { s with pos := s.pos + n }

/-- `Json::current_char`: `self.json.chars().nth(self.pos)`. -/
def currentChar (s : Json) : Option Char :=
  s.json.get? s.pos

/-- `Json::look_ahead`: `self.json.chars().skip(self.pos + 1).take(length)`. -/
def lookAhead (s : Json) (length : Nat) : List Char :=
  (s.json.drop (s.pos + 1)).take length

/-- UTF-8 byte length of a character sequence: what `String::len()`
returns in Rust for the collected string. -/
def utf8Len (cs : List Char) : Nat :=
  (cs.map Char.utf8Size).sum

/-- `Json::invalid_format`'s message,
`format!("Invalid format at pos {} found: '{}'", self.pos, invalid)`. -/
def invalidFormatMsg (pos : Nat) (invalid : Char) : String :=
  "Invalid format at pos " ++ Nat.repr pos ++ " found: '" ++
    String.singleton invalid ++ "'"

/-- Outcome of a parser method call on a `&mut Json` receiver: a returned
`Ok` or `Err` (each with the receiver's state at return), a `panic` from
an `.unwrap()` on an `Err`, or `diverge` when the modelling fuel runs
out (proved unreachable for sufficient fuel). -/
inductive PO where
  | ok (v : JsonValue) (s : Json)
  | err (e : JsonError) (s : Json)
  | panic
  | diverge

/-- `parse_bool`'s error message on a `t`/`T` or `f`/`F` head,
`format!("Invalid boolean at {} found char: '{}'", self.pos, c)`, where
`c` is the lowercased lookahead text. -/
def boolTailMsg (pos : Nat) (tail : List Char) : String :=
  "Invalid boolean at " ++ Nat.repr pos ++ " found char: '" ++
    String.mk tail ++ "'"

/-- `parse_bool`'s catch-all error message,
`format!("Invalid boolean at {} found char: '{:?}'", self.pos, c)`:
`c` there is `Some(<char>)` rendered by `Debug` (modelled for plain,
unescaped characters). -/
def boolHeadMsg (pos : Nat) (c : Char) : String :=
  "Invalid boolean at " ++ Nat.repr pos ++ " found char: 'Some('" ++
    String.singleton c ++ "')'"

/-- `JsonParser::parse_bool` for `Json` (`src/lib.rs`).  Rust's
`str::to_lowercase` is modelled characterwise by `Char.toLower`; on the
character sets compared against `"rue"`/`"alse"` the two agree. -/
def parse_bool (s : Json) : PO :=
  match currentChar s with
  | some c =>
    if c = 't' ∨ c = 'T' then
      let la := (lookAhead s 3).map Char.toLower
      if la = ['r', 'u', 'e'] then .ok (.Bool true) (consumeChars s 4)
      else .err (.InvalidFormat (boolTailMsg s.pos la)) s
    else if c = 'f' ∨ c = 'F' then
      let la := (lookAhead s 4).map Char.toLower
      if la = ['a', 'l', 's', 'e'] then .ok (.Bool false) (consumeChars s 5)
      else .err (.InvalidFormat (boolTailMsg s.pos la)) s
    else .err (.InvalidFormat (boolHeadMsg s.pos c)) s
  | none => .err .EndOfStr s

/-- The character class scanned by `parse_number`:
`c.is_digit(10) || *c == '.' || *c == '-'`. -/
def numChar (c : Char) : Bool :=
  c.isDigit || c == '.' || c == '-'

/-- Numeric value of a digit sequence. -/
def natVal (ds : List Char) : Nat :=
  ds.foldl (fun a c => 10 * a + (c.toNat - 48)) 0

/-- Modelled from the spec: the host (Rust standard library)
floating-point parser `str::parse::<f64>`, restricted to the character
class the number scanner can produce (ASCII digits, `.`, `-`), with the
exact rational value of the accepted literal in place of the rounded
`f64`.  Accepts `d+`, `d+.d*` and `.d+`, with no sign or with one
leading `-`; rejects everything else (empty input, lone `.` or `-`,
repeated `-`, more than one `.`, an interior `-`). -/
def parseF64Pos (cs : List Char) : Option ℚ :=
  let ip := cs.takeWhile Char.isDigit
  let rest := cs.dropWhile Char.isDigit
  match rest with
  | [] => if ip.isEmpty then none else some (natVal ip)
  | '.' :: frac =>
    if frac.all Char.isDigit && !(ip.isEmpty && frac.isEmpty) then
      some ((natVal ip : ℚ) + (natVal frac : ℚ) / (10 : ℚ) ^ frac.length)
    else none
  | _ => none

/-- Strip one leading `-` sign, reporting whether one was present. -/
def stripNeg (cs : List Char) : Bool × List Char :=
  match cs with
  | '-' :: r => (true, r)
  | r => (false, r)

/-- Modelled from the spec: sign handling of the host floating-point
parser (see `parseF64Pos`). -/
def parseF64 (cs : List Char) : Option ℚ :=
  (parseF64Pos (stripNeg cs).2).map
    (fun q => if (stripNeg cs).1 then -q else q)

/-- Modelled from the spec: the display text of Rust's
`ParseFloatError`, interpolated into `parse_number`'s error message. -/
def floatErrText (cs : List Char) : String :=
  if cs.isEmpty then "cannot parse float from empty string"
  else "invalid float literal"

/-- `parse_number`'s error message,
`format!("Invalid number format at {} '{}'", self.pos, e)`. -/
def numErrMsg (pos : Nat) (cs : List Char) : String :=
  "Invalid number format at " ++ Nat.repr pos ++ " '" ++
    floatErrText cs ++ "'"

/-- `JsonParser::parse_number` for `Json` (`src/lib.rs`): greedy scan of
digit/`.`/`-` characters from the cursor, handed to the host float
parser; on success the cursor advances by `num.len()` (the scanned
string's UTF-8 byte length, which here equals its character count). -/
def parse_number (s : Json) : PO :=
  let num := (s.json.drop s.pos).takeWhile numChar
  match parseF64 num with
  | some v => .ok (.Number v) (consumeChars s (utf8Len num))
  | none => .err (.InvalidFormat (numErrMsg s.pos num)) s

/-- `parse_null`'s error message,
`format!("Invalid null value at {} '{}'", self.pos, c)`. -/
def nullErrMsg (pos : Nat) (tail : List Char) : String :=
  "Invalid null value at " ++ Nat.repr pos ++ " '" ++ String.mk tail ++ "'"

/-- `JsonParser::parse_null` for `Json` (`src/lib.rs`): matches the three
characters after the cursor against `"ull"` (case-sensitively) without
ever examining the character at the cursor itself. -/
def parse_null (s : Json) : PO :=
  if lookAhead s 3 = ['u', 'l', 'l'] then .ok .Null (consumeChars s 4)
  else .err (.InvalidFormat (nullErrMsg s.pos (lookAhead s 3))) s

/-- `JsonParser::parse_string` for `Json` (`src/lib.rs`): consume one
character (the opening quote), scan up to the next `"`, then advance by
`str.len()` — the scanned content's UTF-8 **byte** length. -/
def parse_string (s : Json) : PO :=
  let s1 := consumeChar s
  let str := (s1.json.drop s1.pos).takeWhile (fun c => c != '\"')
  .ok (.String str) (consumeChars s1 (utf8Len str))

/-- `JsonParser::parse_key` for `Json` (`src/lib.rs`): scan up to the
next `"` from the cursor and advance by the scanned text's byte length;
returns the raw text together with the updated state (the Rust method
mutates `self` and returns `String`). -/
def parse_key (s : Json) : List Char × Json :=
  let str := (s.json.drop s.pos).takeWhile (fun c => c != '\"')
  (str, consumeChars s (utf8Len str))

/-- The separator class of `parse`'s skip loop:
`' ' | '\n' | ':' | ',' | '\t'`. -/
def skipChar (c : Char) : Bool :=
  c == ' ' || c == '\n' || c == ':' || c == ',' || c == '\t'

/-- One pass of `parse`'s skip loop, with fuel (each iteration consumes
one character, so `length - pos` iterations always suffice). -/
def skipGo : Nat → Json → Json
  | 0, s => s
  | k + 1, s =>
    match currentChar s with
    | some c => if skipChar c then skipGo k (consumeChar s) else s
    | none => s

/-- The skip loop at the head of `parse`: consume characters while they
are one of space, newline, colon, comma, tab. -/
def skipLoop (s : Json) : Json :=
  skipGo (s.json.length - s.pos) s

/-- One iteration of `parse_array`'s loop (`src/lib.rs`), parameterised
by the `parse` to use for a recursive element parse and by the
continuation of the loop itself: consume one character, then classify
the current character.  `acc` is the `array` vector accumulated so far.
The `.unwrap()` on the recursive `parse` result maps an inner `Err` to a
`panic` outcome. -/
def arrayStep (p : Json → PO) (a : List JsonValue → Json → PO)
    (acc : List JsonValue) (s : Json) : PO :=
  let s1 := consumeChar s
  match currentChar s1 with
  | some c =>
    if c = ',' ∨ c = ' ' then a acc (consumeChar s1)
    else if c = ']' then .ok (.Array acc) (consumeChar s1)
    else
      match p s1 with
      | .ok v s2 => a (acc ++ [v]) s2
      | .err _ _ => .panic
      | .panic => .panic
      | .diverge => .diverge
  | none => .ok (.Array acc) s1

/-- One iteration of `parse_object`'s loop (`src/lib.rs`): consume one
character, then classify: `}` closes, separators are consumed (and one
more character at the next loop head), anything else is scanned as a key
by `parse_key` (starting at the current character — the code consumes no
opening quote first), one character is consumed, and a value is parsed
recursively with `.unwrap()`. -/
def objectStep (p : Json → PO) (o : List (List Char × JsonValue) → Json → PO)
    (acc : List (List Char × JsonValue)) (s : Json) : PO :=
  let s1 := consumeChar s
  match currentChar s1 with
  | some c =>
    if c = '}' then .ok (.Object acc) (consumeChar s1)
    else if c = ',' ∨ c = ' ' ∨ c = ':' ∨ c = '\n' ∨ c = '\t' then
      o acc (consumeChar s1)
    else
      let ks := parse_key s1
      let s3 := consumeChar ks.2
      match p s3 with
      | .ok v s4 => o (acc ++ [(ks.1, v)]) s4
      | .err _ _ => .panic
      | .panic => .panic
      | .diverge => .diverge
  | none => .ok (.Object acc) s1

/-- `JsonParser::parse` for `Json` (`src/lib.rs`), parameterised by the
container loops: run the skip loop, then dispatch on the current
character exactly as the source `match` does. -/
def parseStep (a : List JsonValue → Json → PO)
    (o : List (List Char × JsonValue) → Json → PO) (s : Json) : PO :=
  let s1 := skipLoop s
  match currentChar s1 with
  | some c =>
    if c = '{' then o [] s1
    else if c = 'T' ∨ c = 'F' ∨ c = 't' ∨ c = 'f' then parse_bool s1
    else if c = '-' ∨ c = '0' ∨ c = '1' ∨ c = '2' ∨ c = '3' ∨ c = '4' ∨
        c = '5' ∨ c = '6' ∨ c = '7' ∨ c = '8' ∨ c = '9' then parse_number s1
    else if c = 'N' ∨ c = 'n' then parse_null s1
    else if c = '[' then arrayStepLoop s1
    else if c = '\"' then parse_string s1
    else .err (.InvalidFormat (invalidFormatMsg s1.pos c)) s1
  | none => .err .EndOfStr s1
where
  /-- `parse_array` starts its loop with an empty vector. -/
  arrayStepLoop (s1 : Json) : PO := a [] s1

/-- The three mutually recursive routines (`parse`, `parse_array`'s
loop, `parse_object`'s loop) indexed by fuel: at fuel `n + 1` each may
take one step and continue at fuel `n`.  Structural recursion on the
fuel, so concrete runs evaluate by kernel reduction. -/
def F : Nat →
    (Json → PO) × (List JsonValue → Json → PO) ×
      (List (List Char × JsonValue) → Json → PO)
  | 0 => (fun _ => .diverge, fun _ _ => .diverge, fun _ _ => .diverge)
  | n + 1 =>
    ((F n).2.1, (F n).2.2, (F n).1) |> fun (a, o, p) =>
      (parseStep a o, arrayStep p a, objectStep p o)

/-- `parse` at a given fuel. -/
def parseF (n : Nat) : Json → PO := (F n).1

/-- `parse_array`'s loop at a given fuel. -/
def arrayLoopF (n : Nat) : List JsonValue → Json → PO := (F n).2.1

/-- `parse_object`'s loop at a given fuel. -/
def objectLoopF (n : Nat) : List (List Char × JsonValue) → Json → PO := (F n).2.2

/-- `JsonParser::parse`: the fueled `parse` at a fuel that is proved
sufficient for every input (`2 * length + 2`). -/
def parse (s : Json) : PO := parseF (2 * s.json.length + 2) s

/-- `JsonParser::parse_array`: a fresh vector, then the loop, at a
sufficient fuel. -/
def parse_array (s : Json) : PO := arrayLoopF (2 * s.json.length + 1) [] s

/-- `JsonParser::parse_object`: a fresh vector, then the loop, at a
sufficient fuel. -/
def parse_object (s : Json) : PO := objectLoopF (2 * s.json.length + 1) [] s

/-! ## Helper lemmas -/

theorem get_eq_head_drop (l : List Char) (n : Nat) :
    l.get? n = (l.drop n).head? := by
  induction l generalizing n with
  | nil => simp
  | cons a t ih =>
    cases n with
    | zero => simp
    | succ m => simpa using ih m

theorem get_drop (l : List Char) (n m : Nat) :
    (l.drop n).get? m = l.get? (n + m) := by
  induction l generalizing n with
  | nil => simp
  | cons a t ih =>
    cases n with
    | zero => simp
    | succ k => simpa [Nat.succ_add] using ih k

theorem drop_succ_tail (l : List Char) (n : Nat) :
    l.drop (n + 1) = (l.drop n).tail := by
  induction l generalizing n with
  | nil => simp
  | cons a t ih =>
    cases n with
    | zero => simp
    | succ k => simpa using ih k

/-- The buffer left of the first `"` of a list that contains one: the
list splits as the quote-free scanned prefix, the quote, and a rest. -/
theorem quote_split (l : List Char) (h : '\"' ∈ l) :
    ∃ rest, l = l.takeWhile (fun c => c != '\"') ++ '\"' :: rest ∧
      ∀ c ∈ l.takeWhile (fun c => c != '\"'), c ≠ '\"' := by
  induction l with
  | nil => simp at h
  | cons a t ih =>
    by_cases ha : a = '\"'
    · subst ha
      refine ⟨t, ?_, ?_⟩ <;> simp [List.takeWhile_cons]
    · have hb : (a != '\"') = true := by simpa using ha
      have ht : '\"' ∈ t := by
        rcases List.mem_cons.mp h with h1 | h1
        · exact absurd h1.symm ha
        · exact h1
      obtain ⟨rest, hr, hall⟩ := ih ht
      refine ⟨rest, ?_, ?_⟩
      · simpa [List.takeWhile_cons, hb] using congrArg (a :: ·) hr
      · intro c hc
        rw [List.takeWhile_cons, if_pos hb] at hc
        rcases List.mem_cons.mp hc with h1 | h1
        · simpa [h1] using ha
        · exact hall c h1

/-! ## Claim theorems (first batch) -/

/-- C1: claimed — top-level `parse` of `{"age":4}` returns `Ok` with an
object holding exactly `("age", Number 4)`, the object parser consuming
the opening quote of the key before key scanning.  The code instead
reaches `parse_key` with the cursor still on the opening quote (the key
scans empty), then recursively parses at the `a` of `age`, whose
`InvalidFormat` error is `.unwrap()`ed: the call panics, contradicting
the repository's own test `parse_object_num`. -/
theorem C1_parse_object_num_input_panics :
    parse (Json.mk 0 "\x7b\"age\":4\x7d".data) = PO.panic := rfl

/-- C2: claimed — an error from a recursive `parse` inside
`parse_array`/`parse_object` is returned unchanged as a `Result` and
never escapes as a panic.  The code `.unwrap()`s both recursive calls:
on `[x]` the inner `parse` fails with `InvalidFormat` at the `x` and the
enclosing `parse_array` panics instead of returning the error. -/
theorem C2_array_inner_error_panics :
    parse (Json.mk 0 "[x]".data) = PO.panic := rfl

/-- C3 counterexample: on input `"é"` (quote, U+00E9, quote)
`parse_string` returns the scanned content `é` but leaves the cursor at
position 3 — past the closing quote, which sits at position 2 — because
the code advances by the content's UTF-8 byte length (2), not its
character count (1). -/
theorem C3_counterexample :
    parse_string (Json.mk 0 "\"é\"".data) =
        PO.ok (JsonValue.String ['é']) (Json.mk 3 "\"é\"".data) ∧
      "\"é\"".data.get? 2 = some '\"' ∧ (3 : Nat) ≠ 2 :=
  ⟨rfl, rfl, by decide⟩

/-- A parser call preserves the reader state whenever it returns `Err`. -/
def preservesOnErr (f : Json → PO) : Prop :=
  ∀ s e s2, f s = PO.err e s2 → s2 = s

/-- C8: error atomicity of the leaf scalar parsers — whenever
`parse_bool`, `parse_number` or `parse_null` returns an `Err`, the
reader state (cursor) is exactly as it was before the call. -/
theorem C8_leaf_err_atomicity :
    preservesOnErr parse_bool ∧ preservesOnErr parse_number ∧
      preservesOnErr parse_null := by
  refine ⟨?_, ?_, ?_⟩ <;> intro s e s2 h
  · unfold parse_bool at h
    split at h
    · split_ifs at h <;> try simp_all
      all_goals (split at h <;> simp_all)
    · simp_all
  · unfold parse_number at h
    cases hn : parseF64 ((s.json.drop s.pos).takeWhile numChar) <;>
      simp [hn] at h
    exact h.2.symm
  · unfold parse_null at h
    split_ifs at h <;> simp_all

/-- C10: `parse_null` never examines the character at the cursor — for
every state whose three characters immediately after the cursor are
exactly `ull`, it returns `Ok(Null)` and consumes 4 characters, whatever
the cursor character (or even with no character there). -/
theorem C10_null_skips_cursor_char (s : Json)
    (h : lookAhead s 3 = ['u', 'l', 'l']) :
    parse_null s = PO.ok JsonValue.Null (Json.mk (s.pos + 4) s.json) := by
  simp [parse_null, h, consumeChars]

/-- C10 witness: direct `parse_null` on `xull` — the cursor character
`x` is not `n`/`N`, yet the parse succeeds and consumes 4 characters. -/
theorem C10_witness :
    parse_null (Json.mk 0 "xull".data) =
      PO.ok JsonValue.Null (Json.mk (0 + 4) "xull".data) :=
  C10_null_skips_cursor_char (Json.mk 0 "xull".data) rfl

/-- C8 witness: `parse_bool` on `tx` (an invalid boolean) errors and the
state is returned unchanged. -/
theorem C8_witness :
    Json.mk 0 "tx".data = Json.mk 0 "tx".data :=
  C8_leaf_err_atomicity.1 (Json.mk 0 "tx".data)
    (JsonError.InvalidFormat (boolTailMsg 0 ['x'])) (Json.mk 0 "tx".data) rfl

/-- A character below 128 (ASCII) occupies one UTF-8 byte. -/
theorem utf8Size_of_ascii (c : Char) (h : c.toNat < 128) : c.utf8Size = 1 := by
  simp only [Char.utf8Size]
  rw [if_pos]
  show c.val.toNat ≤ (127 : Nat)
  have h2 : c.val.toNat < 128 := h
  omega

/-- On ASCII-only text the UTF-8 byte length equals the character count. -/
theorem utf8Len_of_ascii (cs : List Char) (h : ∀ c ∈ cs, c.toNat < 128) :
    utf8Len cs = cs.length := by
  induction cs with
  | nil => rfl
  | cons a t ih =>
    have ha := h a (List.mem_cons_self a t)
    have ht : ∀ c ∈ t, c.toNat < 128 := fun c hc => h c (List.mem_cons_of_mem a hc)
    have h2 := ih ht
    simp only [utf8Len, List.map_cons, List.sum_cons, List.length_cons,
      utf8Size_of_ascii a ha] at h2 ⊢
    omega

/-- C3 amended: when a closing quote occurs after the opening quote at
the cursor, `parse_string` returns `Ok(String(content))` with `content`
exactly the characters strictly between the two quotes, and advances the
cursor to `pos + 1 +` the UTF-8 **byte** length of the content (not its
character count).  When the content is ASCII-only the byte length equals
the character count and the cursor does land on the closing quote — the
originally claimed behavior; with multi-byte content it overshoots. -/
theorem C3_string_scan (s : Json) (hopen : currentChar s = some '\"')
    (hq : '\"' ∈ s.json.drop (s.pos + 1)) :
    ∃ content rest,
      s.json.drop (s.pos + 1) = content ++ '\"' :: rest ∧
      (∀ c ∈ content, c ≠ '\"') ∧
      parse_string s =
        PO.ok (JsonValue.String content)
          (Json.mk (s.pos + 1 + utf8Len content) s.json) ∧
      (content.all (fun c => c.toNat < 128) = true →
        s.json.get? (s.pos + 1 + content.length) = some '\"' ∧
        utf8Len content = content.length) := by
  obtain ⟨rest, hr, hall⟩ := quote_split _ hq
  set content := (s.json.drop (s.pos + 1)).takeWhile (fun c => c != '\"')
    with hcdef
  refine ⟨content, rest, hr, hall, rfl, ?_⟩
  intro hascii
  constructor
  · rw [← get_drop s.json (s.pos + 1)]
    rw [hr, List.get?_append_right (le_refl _)]
    simp
  · refine utf8Len_of_ascii _ fun c hc => ?_
    simpa using List.all_eq_true.mp hascii c hc

/-- C3 witness: `parse_string` on `"apa"` — ASCII content, so the cursor
lands exactly on the closing quote (position 4). -/
theorem C3_witness :
    ∃ content rest,
      "\"apa\"".data.drop (0 + 1) = content ++ '\"' :: rest ∧
      (∀ c ∈ content, c ≠ '\"') ∧
      parse_string (Json.mk 0 "\"apa\"".data) =
        PO.ok (JsonValue.String content)
          (Json.mk (0 + 1 + utf8Len content) "\"apa\"".data) ∧
      (content.all (fun c => c.toNat < 128) = true →
        "\"apa\"".data.get? (0 + 1 + content.length) = some '\"' ∧
        utf8Len content = content.length) :=
  C3_string_scan (Json.mk 0 "\"apa\"".data) rfl (by decide)

/-- C5: boolean literals in arbitrary letter casing.  A `true` spelled
with any of the 16 casings at the cursor parses to `Bool true` and
advances the cursor by exactly 4; a `false` in any of the 32 casings
parses to `Bool false` advancing by exactly 5; any other tail after a
`t`/`T` or `f`/`F` head yields `Err(InvalidFormat)`. -/
theorem C5_bool_casing :
    (∀ (s : Json) (c1 c2 c3 c4 : Char),
      (s.json.drop s.pos).take 4 = [c1, c2, c3, c4] →
      (c1 = 't' ∨ c1 = 'T') → (c2 = 'r' ∨ c2 = 'R') →
      (c3 = 'u' ∨ c3 = 'U') → (c4 = 'e' ∨ c4 = 'E') →
      parse_bool s = PO.ok (JsonValue.Bool true) (Json.mk (s.pos + 4) s.json)) ∧
    (∀ (s : Json) (c1 c2 c3 c4 c5 : Char),
      (s.json.drop s.pos).take 5 = [c1, c2, c3, c4, c5] →
      (c1 = 'f' ∨ c1 = 'F') → (c2 = 'a' ∨ c2 = 'A') →
      (c3 = 'l' ∨ c3 = 'L') → (c4 = 's' ∨ c4 = 'S') → (c5 = 'e' ∨ c5 = 'E') →
      parse_bool s = PO.ok (JsonValue.Bool false) (Json.mk (s.pos + 5) s.json)) ∧
    (∀ (s : Json) (c : Char), currentChar s = some c → (c = 't' ∨ c = 'T') →
      (lookAhead s 3).map Char.toLower ≠ ['r', 'u', 'e'] →
      ∃ m, parse_bool s = PO.err (JsonError.InvalidFormat m) s) ∧
    (∀ (s : Json) (c : Char), currentChar s = some c → (c = 'f' ∨ c = 'F') →
      (lookAhead s 4).map Char.toLower ≠ ['a', 'l', 's', 'e'] →
      ∃ m, parse_bool s = PO.err (JsonError.InvalidFormat m) s) := by
  refine ⟨?_, ?_, ?_, ?_⟩
  · intro s c1 c2 c3 c4 h4 h1 h2 h3 h4e
    have hd : s.json.drop s.pos = c1 :: c2 :: c3 :: c4 ::
        (s.json.drop s.pos).drop 4 := by
      conv_lhs => rw [← List.take_append_drop 4 (s.json.drop s.pos)]
      rw [h4]
      rfl
    have hcur : currentChar s = some c1 := by
      rw [currentChar, get_eq_head_drop, hd]
      rfl
    have hla : lookAhead s 3 = [c2, c3, c4] := by
      rw [lookAhead, drop_succ_tail, hd]
      rfl
    have hlow : (lookAhead s 3).map Char.toLower = ['r', 'u', 'e'] := by
      rw [hla]
      rcases h2 with rfl | rfl <;> rcases h3 with rfl | rfl <;>
        rcases h4e with rfl | rfl <;> decide
    unfold parse_bool
    rw [hcur]
    rcases h1 with rfl | rfl <;> simp [hlow, consumeChars]
  · intro s c1 c2 c3 c4 c5 h5 h1 h2 h3 h4 h5e
    have hd : s.json.drop s.pos = c1 :: c2 :: c3 :: c4 :: c5 ::
        (s.json.drop s.pos).drop 5 := by
      conv_lhs => rw [← List.take_append_drop 5 (s.json.drop s.pos)]
      rw [h5]
      rfl
    have hcur : currentChar s = some c1 := by
      rw [currentChar, get_eq_head_drop, hd]
      rfl
    have hla : lookAhead s 4 = [c2, c3, c4, c5] := by
      rw [lookAhead, drop_succ_tail, hd]
      rfl
    have hlow : (lookAhead s 4).map Char.toLower = ['a', 'l', 's', 'e'] := by
      rw [hla]
      rcases h2 with rfl | rfl <;> rcases h3 with rfl | rfl <;>
        rcases h4 with rfl | rfl <;> rcases h5e with rfl | rfl <;> decide
    have hne : ¬ (c1 = 't' ∨ c1 = 'T') := by
      rcases h1 with rfl | rfl <;> decide
    unfold parse_bool
    rw [hcur]
    rcases h1 with rfl | rfl <;> simp [hlow, consumeChars]
  · intro s c hcur hc hne
    unfold parse_bool
    rw [hcur]
    rcases hc with rfl | rfl <;> simp [hne]
  · intro s c hcur hc hne
    unfold parse_bool
    rw [hcur]
    rcases hc with rfl | rfl <;> simp [hne]

/-- C5 witness: `parse_bool` on the mixed casing `TrUe` yields
`Bool true` and the cursor advances by exactly 4. -/
theorem C5_witness :
    parse_bool (Json.mk 0 "TrUe".data) =
      PO.ok (JsonValue.Bool true) (Json.mk (0 + 4) "TrUe".data) :=
  C5_bool_casing.1 (Json.mk 0 "TrUe".data) 'T' 'r' 'U' 'e' rfl
    (Or.inr rfl) (Or.inl rfl) (Or.inr rfl) (Or.inl rfl)

/-! ## Numeric literals (claim C7) -/

/-- A nonempty run of ASCII digits. -/
def isDigits (l : List Char) : Bool :=
  !l.isEmpty && l.all Char.isDigit

/-- The claim's literal shape `-?[0-9]+(\.[0-9]+)?`, as a predicate on a
scanned substring. -/
def isNumLit (cs : List Char) : Bool :=
  isDigits ((stripNeg cs).2.takeWhile Char.isDigit) &&
    (((stripNeg cs).2.dropWhile Char.isDigit).isEmpty ||
      (((stripNeg cs).2.dropWhile Char.isDigit).head? = some '.' &&
        isDigits ((stripNeg cs).2.dropWhile Char.isDigit).tail))

/-- The standard decimal interpretation of an unsigned literal body:
integer part plus fractional part scaled by a power of ten. -/
def ratOfBody (b : List Char) : ℚ :=
  (natVal (b.takeWhile Char.isDigit) : ℚ) +
    (natVal (b.dropWhile Char.isDigit).tail : ℚ) /
      (10 : ℚ) ^ ((b.dropWhile Char.isDigit).tail).length

/-- The standard interpretation of a `-?[0-9]+(\.[0-9]+)?` literal. -/
def ratOfLit (cs : List Char) : ℚ :=
  if (stripNeg cs).1 then -(ratOfBody (stripNeg cs).2)
  else ratOfBody (stripNeg cs).2

/-- On a literal body accepted by `isNumLit`, the modelled host float
parser succeeds with the standard decimal interpretation. -/
theorem parseF64Pos_of_body (b : List Char)
    (h : (isDigits (b.takeWhile Char.isDigit) &&
      ((b.dropWhile Char.isDigit).isEmpty ||
        ((b.dropWhile Char.isDigit).head? = some '.' &&
          isDigits (b.dropWhile Char.isDigit).tail))) = true) :
    parseF64Pos b = some (ratOfBody b) := by
  rw [Bool.and_eq_true] at h
  obtain ⟨hip, hrest⟩ := h
  unfold isDigits at hip
  rw [Bool.and_eq_true] at hip
  have hipne : (b.takeWhile Char.isDigit).isEmpty = false := by
    simpa using hip.1
  unfold parseF64Pos ratOfBody
  cases hr : b.dropWhile Char.isDigit with
  | nil =>
    simp [hr, hipne, natVal]
  | cons d rest2 =>
    rw [hr] at hrest
    simp only [List.isEmpty_cons, Bool.false_or, Bool.and_eq_true,
      List.head?_cons, Option.some.injEq, List.tail_cons] at hrest
    obtain ⟨hd, hr2⟩ := hrest
    have hd2 : d = '.' := by simpa using hd
    subst hd2
    unfold isDigits at hr2
    rw [Bool.and_eq_true] at hr2
    have hr2ne : rest2.isEmpty = false := by simpa using hr2.1
    have hr2dig : rest2.all Char.isDigit = true := hr2.2
    simp [hr, hr2dig, hr2ne]

/-- On a literal matching the claim's shape, the modelled host float
parser returns exactly the literal's standard interpretation. -/
theorem parseF64_of_numLit (cs : List Char) (h : isNumLit cs = true) :
    parseF64 cs = some (ratOfLit cs) := by
  unfold isNumLit at h
  unfold parseF64 ratOfLit
  rw [parseF64Pos_of_body _ h]
  by_cases hb : (stripNeg cs).1 = true
  · simp [hb]
  · simp [hb]

/-- Digits are ASCII. -/
theorem digit_ascii (c : Char) (h : c.isDigit = true) : c.toNat < 128 := by
  simp [Char.isDigit] at h
  have h2 : c.val.toNat ≤ 57 := h.2
  show c.val.toNat < 128
  omega

/-- Every character the number scanner accepts is ASCII. -/
theorem numChar_ascii (c : Char) (h : numChar c = true) : c.toNat < 128 := by
  unfold numChar at h
  rw [Bool.or_eq_true, Bool.or_eq_true] at h
  rcases h with (h1 | h2) | h3
  · exact digit_ascii c h1
  · rw [show c = '.' from by simpa using h2]
    decide
  · rw [show c = '-' from by simpa using h3]
    decide

/-- Members of a `takeWhile` satisfy the predicate. -/
theorem mem_takeWhile_pred {p : Char → Bool} {l : List Char} {c : Char}
    (h : c ∈ l.takeWhile p) : p c = true := by
  induction l with
  | nil => simp at h
  | cons a t ih =>
    rw [List.takeWhile_cons] at h
    by_cases hp : p a
    · rw [if_pos hp] at h
      rcases List.mem_cons.mp h with rfl | h2
      · exact hp
      · exact ih h2
    · rw [if_neg hp] at h
      simp at h

/-- C7: numeric literal parsing.  When the greedy digit/`.`/`-` scan at
the cursor yields a literal matching `-?[0-9]+(\.[0-9]+)?` (so the
literal is followed by end of input or by a character outside the
class), `parse_number` returns `Ok(Number v)` with `v` the standard
decimal interpretation of the literal (leading zeros accepted) and
advances the cursor by exactly the literal's length; when the scanned
substring is not accepted by the float parser, it returns
`Err(InvalidFormat)` with the state unchanged. -/
theorem C7_number_parsing (s : Json) :
    (isNumLit ((s.json.drop s.pos).takeWhile numChar) = true →
      parse_number s =
        PO.ok
          (JsonValue.Number (ratOfLit ((s.json.drop s.pos).takeWhile numChar)))
          (Json.mk (s.pos + ((s.json.drop s.pos).takeWhile numChar).length)
            s.json)) ∧
    (parseF64 ((s.json.drop s.pos).takeWhile numChar) = none →
      ∃ m, parse_number s = PO.err (JsonError.InvalidFormat m) s) := by
  constructor
  · intro h
    have hv := parseF64_of_numLit _ h
    have hlen : utf8Len ((s.json.drop s.pos).takeWhile numChar) =
        ((s.json.drop s.pos).takeWhile numChar).length :=
      utf8Len_of_ascii _ fun c hc => numChar_ascii c (mem_takeWhile_pred hc)
    unfold parse_number
    simp only [hv, hlen]
    rfl
  · intro h
    unfold parse_number
    simp only [h]
    exact ⟨_, rfl⟩

/-- C7 witness: `parse_number` on `02` — the scan takes the whole input,
the literal matches the shape, the value is the standard interpretation
(2, the leading zero accepted) and the cursor advances by its length. -/
theorem C7_witness :
    parse_number (Json.mk 0 "02".data) =
      PO.ok
        (JsonValue.Number (ratOfLit (("02".data.drop 0).takeWhile numChar)))
        (Json.mk (0 + (("02".data.drop 0).takeWhile numChar).length)
          "02".data) :=
  (C7_number_parsing (Json.mk 0 "02".data)).1 (by decide)

/-- The standard interpretation of `02` is the rational 2: the witness
value in concrete form. -/
theorem C7_witness_value : ratOfLit (("02".data.drop 0).takeWhile numChar) = 2 ∧
    (("02".data.drop 0).takeWhile numChar).length = 2 := by
  constructor
  · show ratOfLit ['0', '2'] = 2
    have h1 : stripNeg ['0', '2'] = (false, ['0', '2']) := rfl
    have h2 : List.takeWhile Char.isDigit ['0', '2'] = ['0', '2'] := rfl
    have h3 : List.dropWhile Char.isDigit ['0', '2'] = [] := rfl
    have h4 : natVal ['0', '2'] = 2 := rfl
    have h5 : natVal ([] : List Char) = 0 := rfl
    unfold ratOfLit ratOfBody
    rw [h1]
    norm_num [h2, h3, h4, h5]
  · decide

/-! ## Fuel-step equations and loop properties -/

theorem parseF_succ (n : Nat) :
    parseF (n + 1) = parseStep (arrayLoopF n) (objectLoopF n) := rfl

theorem arrayLoopF_succ (n : Nat) :
    arrayLoopF (n + 1) = arrayStep (parseF n) (arrayLoopF n) := rfl

theorem objectLoopF_succ (n : Nat) :
    objectLoopF (n + 1) = objectStep (parseF n) (objectLoopF n) := rfl

/-- `parse_array`'s loop never returns an `Err`: its recursive-parse
failures are unwrapped (panic) and end of input breaks the loop. -/
theorem arrayLoopF_no_err (n : Nat) :
    ∀ acc s e s2, arrayLoopF n acc s ≠ PO.err e s2 := by
  induction n with
  | zero =>
    intro acc s e s2 h
    exact PO.noConfusion h
  | succ n ih =>
    intro acc s e s2 h
    rw [arrayLoopF_succ] at h
    simp only [arrayStep] at h
    split at h
    · split_ifs at h <;>
        first
          | exact ih _ _ _ _ h
          | exact PO.noConfusion h
          | (split at h <;>
              first
                | exact ih _ _ _ _ h
                | exact PO.noConfusion h)
    · exact PO.noConfusion h

/-- `parse_object`'s loop never returns an `Err`, for the same reason. -/
theorem objectLoopF_no_err (n : Nat) :
    ∀ acc s e s2, objectLoopF n acc s ≠ PO.err e s2 := by
  induction n with
  | zero =>
    intro acc s e s2 h
    exact PO.noConfusion h
  | succ n ih =>
    intro acc s e s2 h
    rw [objectLoopF_succ] at h
    simp only [objectStep] at h
    split at h
    · split_ifs at h <;>
        first
          | exact ih _ _ _ _ h
          | exact PO.noConfusion h
          | (split at h <;>
              first
                | exact ih _ _ _ _ h
                | exact PO.noConfusion h)
    · exact PO.noConfusion h

/-- C6: silent truncation at end of input inside the array loop.  The
array loop never produces an error (first conjunct); and whenever the
loop head reaches end of input before classifying a `]`, it terminates
immediately with `Ok(Array acc)` — exactly the elements accumulated so
far, in encounter order (second conjunct). -/
theorem C6_array_eof_truncation :
    (∀ (s : Json) (e : JsonError) (s2 : Json), parse_array s ≠ PO.err e s2) ∧
    (∀ (n : Nat) (acc : List JsonValue) (s : Json),
      s.json.length ≤ s.pos + 1 →
      arrayLoopF (n + 1) acc s = PO.ok (JsonValue.Array acc) (consumeChar s)) := by
  constructor
  · intro s e s2
    exact arrayLoopF_no_err _ _ _ _ _
  · intro n acc s hle
    rw [arrayLoopF_succ]
    simp only [arrayStep]
    have hnone : currentChar (consumeChar s) = none := by
      show s.json.get? (s.pos + 1) = none
      rw [List.get?_eq_none]
      omega
    simp [hnone]

/-- C6 witness: the truncated input `[1,2` — with the two parsed numbers
accumulated and the cursor at the end, the loop returns them silently. -/
theorem C6_witness :
    arrayLoopF (0 + 1) [JsonValue.Number 1, JsonValue.Number 2]
        (Json.mk 4 "[1,2".data) =
      PO.ok (JsonValue.Array [JsonValue.Number 1, JsonValue.Number 2])
        (consumeChar (Json.mk 4 "[1,2".data)) :=
  C6_array_eof_truncation.2 0 [JsonValue.Number 1, JsonValue.Number 2]
    (Json.mk 4 "[1,2".data) (by decide)

/-- The skip loop never changes the buffer. -/
theorem skipGo_json (k : Nat) : ∀ s : Json, (skipGo k s).json = s.json := by
  induction k with
  | zero => intro s; rfl
  | succ k ih =>
    intro s
    unfold skipGo
    split
    · split_ifs
      · exact ih (consumeChar s)
      · rfl
    · rfl

theorem skipLoop_json (s : Json) : (skipLoop s).json = s.json :=
  skipGo_json _ s

/-- The skip loop only moves the cursor forward. -/
theorem skipGo_pos_le (k : Nat) : ∀ s : Json, s.pos ≤ (skipGo k s).pos := by
  induction k with
  | zero => intro s; exact le_refl _
  | succ k ih =>
    intro s
    unfold skipGo
    split
    · split_ifs
      · exact le_trans (Nat.le_succ _) (ih (consumeChar s))
      · exact le_refl _
    · exact le_refl _

theorem skipLoop_pos_le (s : Json) : s.pos ≤ (skipLoop s).pos :=
  skipGo_pos_le _ s

/-- `parse_bool` returns `EndOfStr` only when there is no character at
the cursor. -/
theorem parse_bool_eos (s s2 : Json)
    (h : parse_bool s = PO.err JsonError.EndOfStr s2) : currentChar s = none := by
  unfold parse_bool at h
  split at h
  · split_ifs at h <;> try simp_all
    all_goals (split at h <;> simp_all)
  · simp_all

/-- `parse_number` never returns `EndOfStr`. -/
theorem parse_number_no_eos (s s2 : Json) :
    parse_number s ≠ PO.err JsonError.EndOfStr s2 := by
  intro h
  unfold parse_number at h
  cases hn : parseF64 ((s.json.drop s.pos).takeWhile numChar) <;>
    simp [hn] at h

/-- `parse_null` never returns `EndOfStr`. -/
theorem parse_null_no_eos (s s2 : Json) :
    parse_null s ≠ PO.err JsonError.EndOfStr s2 := by
  intro h
  unfold parse_null at h
  split_ifs at h <;> simp_all

/-- `parse_string` never returns an error at all. -/
theorem parse_string_no_err (s : Json) (e : JsonError) (s2 : Json) :
    parse_string s ≠ PO.err e s2 := by
  intro h
  exact PO.noConfusion h

/-- C4: `parse` returns `Err(EndOfStr)` exactly when the initial skip
loop (consuming space, newline, tab, colon, comma) leaves the cursor at
or past the end of the input — so the empty string and any string of
separator characters only produce `EndOfStr`, and no other input does. -/
theorem C4_end_of_stream_iff (s : Json) :
    (∃ s2, parse s = PO.err JsonError.EndOfStr s2) ↔
      s.json.length ≤ (skipLoop s).pos := by
  have hp : parse s = parseStep (arrayLoopF (2 * s.json.length + 1))
      (objectLoopF (2 * s.json.length + 1)) s := rfl
  constructor
  · rintro ⟨s2, h⟩
    rw [hp] at h
    simp only [parseStep] at h
    by_contra hge
    push_neg at hge
    obtain ⟨c, hc⟩ : ∃ c, currentChar (skipLoop s) = some c := by
      cases hcc : currentChar (skipLoop s) with
      | none =>
        exfalso
        have h2 : s.json.get? (skipLoop s).pos = none := by
          rw [← skipLoop_json s]
          exact hcc
        exact absurd (List.get?_eq_none.mp h2) (Nat.not_le_of_lt hge)
      | some c => exact ⟨c, rfl⟩
    simp only [hc] at h
    split_ifs at h
    · exact objectLoopF_no_err _ _ _ _ _ h
    · have h2 := parse_bool_eos _ _ h
      rw [hc] at h2
      exact Option.noConfusion h2
    · exact parse_number_no_eos _ _ h
    · exact parse_null_no_eos _ _ h
    · exact arrayLoopF_no_err _ _ _ _ _ h
    · exact parse_string_no_err _ _ _ h
    · simp at h
  · intro hle
    refine ⟨skipLoop s, ?_⟩
    rw [hp]
    simp only [parseStep]
    have hc : currentChar (skipLoop s) = none := by
      show (skipLoop s).json.get? (skipLoop s).pos = none
      rw [skipLoop_json s, List.get?_eq_none]
      exact hle
    simp [hc]

/-! ## Termination (claim C9): progress, fuel sufficiency, stability -/

theorem consumeChar_pos (s : Json) : (consumeChar s).pos = s.pos + 1 := rfl

theorem consumeChar_json (s : Json) : (consumeChar s).json = s.json := rfl

theorem consumeChars_pos (s : Json) (n : Nat) :
    (consumeChars s n).pos = s.pos + n := rfl

theorem consumeChars_json (s : Json) (n : Nat) :
    (consumeChars s n).json = s.json := rfl

theorem parse_key_snd_json (s : Json) : (parse_key s).2.json = s.json := rfl

/-- `parse_bool` either succeeds consuming 4 or 5 characters, or fails
leaving the state unchanged. -/
theorem parse_bool_shape (s : Json) :
    parse_bool s = PO.ok (JsonValue.Bool true) (consumeChars s 4) ∨
    parse_bool s = PO.ok (JsonValue.Bool false) (consumeChars s 5) ∨
    (∃ e, parse_bool s = PO.err e s) := by
  unfold parse_bool
  split
  · dsimp only
    split_ifs <;>
      first
        | exact Or.inl rfl
        | exact Or.inr (Or.inl rfl)
        | exact Or.inr (Or.inr ⟨_, rfl⟩)
  · exact Or.inr (Or.inr ⟨_, rfl⟩)

/-- `parse_null` either succeeds consuming 4 characters or fails with
the state unchanged. -/
theorem parse_null_shape (s : Json) :
    parse_null s = PO.ok JsonValue.Null (consumeChars s 4) ∨
    (∃ e, parse_null s = PO.err e s) := by
  unfold parse_null
  split_ifs
  · exact Or.inl rfl
  · exact Or.inr ⟨_, rfl⟩

/-- The modelled float parser rejects the empty scan. -/
theorem parseF64_nil : parseF64 [] = none := rfl

/-- A character occupies at least one UTF-8 byte. -/
theorem utf8Len_pos (cs : List Char) (h : cs ≠ []) : 0 < utf8Len cs := by
  cases cs with
  | nil => exact absurd rfl h
  | cons a t =>
    have := Char.utf8Size_pos a
    simp only [utf8Len, List.map_cons, List.sum_cons]
    omega

/-- `parse_bool` on success preserves the buffer and strictly advances
the cursor. -/
theorem parse_bool_ok (s : Json) (v : JsonValue) (s2 : Json)
    (h : parse_bool s = PO.ok v s2) : s2.json = s.json ∧ s.pos < s2.pos := by
  rcases parse_bool_shape s with hb | hb | ⟨e, hb⟩
  · rcases PO.ok.inj (h.symm.trans hb) with ⟨-, rfl⟩
    exact ⟨rfl, by show s.pos < s.pos + 4; omega⟩
  · rcases PO.ok.inj (h.symm.trans hb) with ⟨-, rfl⟩
    exact ⟨rfl, by show s.pos < s.pos + 5; omega⟩
  · exact PO.noConfusion (h.symm.trans hb)

/-- `parse_number` on success preserves the buffer and strictly
advances the cursor (a successful scan is nonempty). -/
theorem parse_number_ok (s : Json) (v : JsonValue) (s2 : Json)
    (h : parse_number s = PO.ok v s2) : s2.json = s.json ∧ s.pos < s2.pos := by
  unfold parse_number at h
  cases hn : parseF64 ((s.json.drop s.pos).takeWhile numChar) with
  | none => simp [hn] at h
  | some q =>
    simp only [hn, PO.ok.injEq] at h
    obtain ⟨-, rfl⟩ := h
    have hne : (s.json.drop s.pos).takeWhile numChar ≠ [] := by
      intro h0
      rw [h0] at hn
      exact Option.noConfusion hn
    have := utf8Len_pos _ hne
    refine ⟨rfl, ?_⟩
    show s.pos < s.pos + utf8Len ((s.json.drop s.pos).takeWhile numChar)
    omega

/-- `parse_null` on success preserves the buffer and strictly advances
the cursor. -/
theorem parse_null_ok (s : Json) (v : JsonValue) (s2 : Json)
    (h : parse_null s = PO.ok v s2) : s2.json = s.json ∧ s.pos < s2.pos := by
  rcases parse_null_shape s with hb | ⟨e, hb⟩
  · rcases PO.ok.inj (h.symm.trans hb) with ⟨-, rfl⟩
    exact ⟨rfl, by show s.pos < s.pos + 4; omega⟩
  · exact PO.noConfusion (h.symm.trans hb)

/-- `parse_string` on success preserves the buffer and strictly
advances the cursor (it always consumes at least the opening quote). -/
theorem parse_string_ok (s : Json) (v : JsonValue) (s2 : Json)
    (h : parse_string s = PO.ok v s2) : s2.json = s.json ∧ s.pos < s2.pos := by
  unfold parse_string at h
  rcases PO.ok.inj h with ⟨-, rfl⟩
  refine ⟨rfl, ?_⟩
  show s.pos < s.pos + 1 + utf8Len _
  omega

/-- Progress: at every fuel, a successful run preserves the buffer and
strictly advances the cursor — for `parse`, the array loop and the
object loop alike. -/
theorem fuel_progress (n : Nat) :
    (∀ s v s2, parseF n s = PO.ok v s2 → s2.json = s.json ∧ s.pos < s2.pos) ∧
    (∀ acc s v s2, arrayLoopF n acc s = PO.ok v s2 →
      s2.json = s.json ∧ s.pos < s2.pos) ∧
    (∀ acc s v s2, objectLoopF n acc s = PO.ok v s2 →
      s2.json = s.json ∧ s.pos < s2.pos) := by
  induction n with
  | zero =>
    exact ⟨fun s v s2 h => PO.noConfusion h,
      fun acc s v s2 h => PO.noConfusion h,
      fun acc s v s2 h => PO.noConfusion h⟩
  | succ n ih =>
    obtain ⟨ihp, iha, iho⟩ := ih
    refine ⟨?_, ?_, ?_⟩
    · intro s v s2 h
      rw [parseF_succ] at h
      simp only [parseStep] at h
      have hj := skipLoop_json s
      have hpl := skipLoop_pos_le s
      split at h
      · split_ifs at h
        · obtain ⟨h1, h2⟩ := iho _ _ _ _ h
          exact ⟨h1.trans hj, Nat.lt_of_le_of_lt hpl h2⟩
        · obtain ⟨h1, h2⟩ := parse_bool_ok _ _ _ h
          exact ⟨h1.trans hj, Nat.lt_of_le_of_lt hpl h2⟩
        · obtain ⟨h1, h2⟩ := parse_number_ok _ _ _ h
          exact ⟨h1.trans hj, Nat.lt_of_le_of_lt hpl h2⟩
        · obtain ⟨h1, h2⟩ := parse_null_ok _ _ _ h
          exact ⟨h1.trans hj, Nat.lt_of_le_of_lt hpl h2⟩
        · obtain ⟨h1, h2⟩ := iha _ _ _ _ h
          exact ⟨h1.trans hj, Nat.lt_of_le_of_lt hpl h2⟩
        · obtain ⟨h1, h2⟩ := parse_string_ok _ _ _ h
          exact ⟨h1.trans hj, Nat.lt_of_le_of_lt hpl h2⟩
      · exact PO.noConfusion h
    · intro acc s v s2 h
      rw [arrayLoopF_succ] at h
      simp only [arrayStep] at h
      split at h
      · split_ifs at h
        · obtain ⟨h1, h2⟩ := iha _ _ _ _ h
          refine ⟨h1, ?_⟩
          simp only [consumeChar_pos] at h2
          omega
        · rcases PO.ok.inj h with ⟨-, rfl⟩
          exact ⟨rfl, by simp only [consumeChar_pos]; omega⟩
        · split at h
          · next v1 s3 heq =>
            obtain ⟨hp1, hp2⟩ := ihp _ _ _ heq
            obtain ⟨h1, h2⟩ := iha _ _ _ _ h
            refine ⟨h1.trans hp1, ?_⟩
            simp only [consumeChar_pos] at hp2
            omega
          · exact PO.noConfusion h
          · exact PO.noConfusion h
          · exact PO.noConfusion h
      · rcases PO.ok.inj h with ⟨-, rfl⟩
        exact ⟨rfl, by simp only [consumeChar_pos]; omega⟩
    · intro acc s v s2 h
      rw [objectLoopF_succ] at h
      simp only [objectStep] at h
      split at h
      · split_ifs at h
        · rcases PO.ok.inj h with ⟨-, rfl⟩
          exact ⟨rfl, by simp only [consumeChar_pos]; omega⟩
        · obtain ⟨h1, h2⟩ := iho _ _ _ _ h
          refine ⟨h1, ?_⟩
          simp only [consumeChar_pos] at h2
          omega
        · split at h
          · next v1 s4 heq =>
            obtain ⟨hp1, hp2⟩ := ihp _ _ _ heq
            obtain ⟨h1, h2⟩ := iho _ _ _ _ h
            refine ⟨h1.trans hp1, ?_⟩
            have hk : s.pos + 1 ≤ (parse_key (consumeChar s)).2.pos :=
              Nat.le_add_right _ _
            simp only [consumeChar_pos] at hp2
            omega
          · exact PO.noConfusion h
          · exact PO.noConfusion h
          · exact PO.noConfusion h
      · rcases PO.ok.inj h with ⟨-, rfl⟩
        exact ⟨rfl, by simp only [consumeChar_pos]; omega⟩

theorem parse_bool_no_diverge (s : Json) : parse_bool s ≠ PO.diverge := by
  intro h
  rcases parse_bool_shape s with hb | hb | ⟨e, hb⟩ <;>
    rw [hb] at h <;> exact PO.noConfusion h

theorem parse_number_no_diverge (s : Json) : parse_number s ≠ PO.diverge := by
  intro h
  unfold parse_number at h
  cases hn : parseF64 ((s.json.drop s.pos).takeWhile numChar) <;>
    simp [hn] at h

theorem parse_null_no_diverge (s : Json) : parse_null s ≠ PO.diverge := by
  intro h
  rcases parse_null_shape s with hb | ⟨e, hb⟩ <;>
    rw [hb] at h <;> exact PO.noConfusion h

theorem parse_string_no_diverge (s : Json) : parse_string s ≠ PO.diverge := by
  intro h
  exact PO.noConfusion h

/-- Fuel sufficiency: with fuel at least twice the remaining input
(plus a constant), no run exhausts its fuel — every loop iteration and
every recursive call strictly advances the cursor, so iteration count
and recursion depth are bounded by the remaining input length. -/
theorem fuel_enough (n : Nat) :
    (∀ s, 2 * (s.json.length - s.pos) + 2 ≤ n → parseF n s ≠ PO.diverge) ∧
    (∀ acc s, 2 * (s.json.length - s.pos) + 1 ≤ n →
      arrayLoopF n acc s ≠ PO.diverge) ∧
    (∀ acc s, 2 * (s.json.length - s.pos) + 1 ≤ n →
      objectLoopF n acc s ≠ PO.diverge) := by
  induction n with
  | zero =>
    refine ⟨fun s hle => absurd hle (by omega),
      fun acc s hle => absurd hle (by omega),
      fun acc s hle => absurd hle (by omega)⟩
  | succ n ih =>
    obtain ⟨ihp, iha, iho⟩ := ih
    refine ⟨?_, ?_, ?_⟩
    · intro s hle h
      rw [parseF_succ] at h
      simp only [parseStep] at h
      have hj := skipLoop_json s
      have hpl := skipLoop_pos_le s
      split at h
      · split_ifs at h
        · refine absurd h (iho [] (skipLoop s) ?_)
          rw [skipLoop_json]
          omega
        · exact parse_bool_no_diverge _ h
        · exact parse_number_no_diverge _ h
        · exact parse_null_no_diverge _ h
        · refine absurd h (iha [] (skipLoop s) ?_)
          rw [skipLoop_json]
          omega
        · exact parse_string_no_diverge _ h
      · exact PO.noConfusion h
    · intro acc s hle h
      rw [arrayLoopF_succ] at h
      simp only [arrayStep] at h
      split at h
      · next c heq =>
        have heq2 : s.json.get? (s.pos + 1) = some c := heq
        obtain ⟨hlt, -⟩ := List.get?_eq_some.mp heq2
        split_ifs at h
        · refine absurd h (iha acc _ ?_)
          simp only [consumeChar_pos, consumeChar_json]
          omega
        · split at h
          · next v1 s3 heq3 =>
            obtain ⟨hp1, hp2⟩ := (fuel_progress n).1 _ _ _ heq3
            refine absurd h (iha _ s3 ?_)
            rw [hp1]
            simp only [consumeChar_json, consumeChar_pos] at hp2 ⊢
            omega
          · exact PO.noConfusion h
          · exact PO.noConfusion h
          · next heq3 =>
            refine absurd heq3 (ihp _ ?_)
            simp only [consumeChar_json, consumeChar_pos]
            omega
      · exact PO.noConfusion h
    · intro acc s hle h
      rw [objectLoopF_succ] at h
      simp only [objectStep] at h
      split at h
      · next c heq =>
        have heq2 : s.json.get? (s.pos + 1) = some c := heq
        obtain ⟨hlt, -⟩ := List.get?_eq_some.mp heq2
        split_ifs at h
        · refine absurd h (iho acc _ ?_)
          simp only [consumeChar_pos, consumeChar_json]
          omega
        · split at h
          · next v1 s4 heq3 =>
            obtain ⟨hp1, hp2⟩ := (fuel_progress n).1 _ _ _ heq3
            refine absurd h (iho _ s4 ?_)
            rw [hp1]
            have hk : s.pos + 1 ≤ (parse_key (consumeChar s)).2.pos :=
              Nat.le_add_right _ _
            simp only [consumeChar_json, consumeChar_pos,
              parse_key_snd_json] at hp2 ⊢
            omega
          · exact PO.noConfusion h
          · exact PO.noConfusion h
          · next heq3 =>
            refine absurd heq3 (ihp _ ?_)
            have hk : s.pos + 1 ≤ (parse_key (consumeChar s)).2.pos :=
              Nat.le_add_right _ _
            simp only [consumeChar_json, consumeChar_pos, parse_key_snd_json]
            omega
      · exact PO.noConfusion h

/-- Fuel monotonicity: a run that does not exhaust its fuel computes
the same outcome with any extra fuel. -/
theorem fuel_mono (n : Nat) :
    (∀ s, parseF n s ≠ PO.diverge → parseF (n + 1) s = parseF n s) ∧
    (∀ acc s, arrayLoopF n acc s ≠ PO.diverge →
      arrayLoopF (n + 1) acc s = arrayLoopF n acc s) ∧
    (∀ acc s, objectLoopF n acc s ≠ PO.diverge →
      objectLoopF (n + 1) acc s = objectLoopF n acc s) := by
  induction n with
  | zero =>
    refine ⟨fun s h => absurd rfl h, fun acc s h => absurd rfl h,
      fun acc s h => absurd rfl h⟩
  | succ n ih =>
    obtain ⟨ihp, iha, iho⟩ := ih
    refine ⟨?_, ?_, ?_⟩
    · intro s h
      rw [parseF_succ] at h
      rw [parseF_succ, parseF_succ]
      simp only [parseStep] at h ⊢
      cases hc : currentChar (skipLoop s) with
      | none => simp [hc]
      | some c =>
        simp only [hc] at h ⊢
        split_ifs at h ⊢
        · exact iho _ _ h
        · rfl
        · rfl
        · rfl
        · exact iha _ _ h
        · rfl
        · rfl
    · intro acc s h
      rw [arrayLoopF_succ] at h
      rw [arrayLoopF_succ, arrayLoopF_succ]
      simp only [arrayStep] at h ⊢
      cases hc : currentChar (consumeChar s) with
      | none => simp [hc]
      | some c =>
        simp only [hc] at h ⊢
        split_ifs at h ⊢
        · exact iha _ _ h
        · rfl
        · have hpn : parseF n (consumeChar s) ≠ PO.diverge := by
            intro hd
            exact h (by rw [hd])
          rw [ihp _ hpn]
          cases hps : parseF n (consumeChar s) with
          | ok v s2 =>
            simp only [hps] at h ⊢
            exact iha _ _ h
          | err e s2 => simp [hps]
          | panic => simp [hps]
          | diverge => exact absurd hps hpn
    · intro acc s h
      rw [objectLoopF_succ] at h
      rw [objectLoopF_succ, objectLoopF_succ]
      simp only [objectStep] at h ⊢
      cases hc : currentChar (consumeChar s) with
      | none => simp [hc]
      | some c =>
        simp only [hc] at h ⊢
        split_ifs at h ⊢
        · rfl
        · exact iho _ _ h
        · have hpn : parseF n (consumeChar (parse_key (consumeChar s)).2) ≠
              PO.diverge := by
            intro hd
            exact h (by rw [hd])
          rw [ihp _ hpn]
          cases hps : parseF n (consumeChar (parse_key (consumeChar s)).2) with
          | ok v s4 =>
            simp only [hps] at h ⊢
            exact iho _ _ h
          | err e s4 => simp [hps]
          | panic => simp [hps]
          | diverge => exact absurd hps hpn

/-- Stability: beyond any fuel that suffices, the outcome is fixed. -/
theorem parseF_stable (s : Json) (n : Nat) (h : parseF n s ≠ PO.diverge) :
    ∀ k, parseF (n + k) s = parseF n s := by
  intro k
  induction k with
  | zero => rfl
  | succ k ih =>
    have h2 : parseF (n + k) s ≠ PO.diverge := by
      rw [ih]
      exact h
    calc parseF (n + (k + 1)) s = parseF ((n + k) + 1) s := rfl
    _ = parseF (n + k) s := (fuel_mono (n + k)).1 s h2
    _ = parseF n s := ih

/-- C9: termination.  For every input buffer and cursor position there
is a fuel bound (twice the input length plus two) beyond which the
fueled `parse` no longer consumes fuel: it never diverges there and its
outcome equals `parse`'s for every larger fuel — each loop iteration
and each recursive call strictly increases the cursor (`fuel_progress`),
so iterations and recursion depth are bounded by the input length
(`fuel_enough`). -/
theorem C9_parse_terminates (s : Json) :
    ∃ N, parseF N s ≠ PO.diverge ∧ ∀ m, N ≤ m → parseF m s = parse s := by
  refine ⟨2 * s.json.length + 2, ?_, ?_⟩
  · apply (fuel_enough _).1
    have := Nat.sub_le s.json.length s.pos
    omega
  · intro m hm
    have hnd : parseF (2 * s.json.length + 2) s ≠ PO.diverge := by
      apply (fuel_enough _).1
      have := Nat.sub_le s.json.length s.pos
      omega
    have hst := parseF_stable s (2 * s.json.length + 2) hnd
        (m - (2 * s.json.length + 2))
    rw [show 2 * s.json.length + 2 + (m - (2 * s.json.length + 2)) = m from by
      omega] at hst
    exact hst
